import Mathlib

/-
Verification of the custom-tag normalization layer of the yaml-language-server
slice (`src/languageservice/parser/yamlParser07.ts`) and of the quick-fix
value inferencer it feeds (`src/languageservice/services/yamlCodeActions.ts`,
known here through its tests and the specification).

The embedding is shallow: YAML AST nodes become an inductive `Node`; the
`transform` tree walk of `yamlParser07.ts` becomes the mutually recursive
`transformNode` / `transformPairs` / `transformItems`; the tag registry built
from the `customTags` configuration strings becomes `tagMapOf` / `tagType`;
JavaScript's `String.replace` with a string pattern (first occurrence only)
becomes `replaceFirst`.

Semantics of the external `yaml` package operations used by the source, as
described by the specification:
  - `visit` walks the tree depth-first; a callback runs on a node before its
    children are visited; a callback returning a node replaces the current
    node in the parent and the walk continues with the replacement.
  - `YAMLMap.add` appends a pair to the map's item list when no pair with an
    equal key is present (the specification: "append a new pair ... to the
    map's existing pair list"; "the discriminator pair is additive"). The
    behavior of `add` when an equal key — such as a pre-existing `$type`
    key — is already present is deliberately left unspecified by the
    specification and is not modelled here; every statement below exercises
    a single normalization pass on trees without a pre-existing `$type`
    key, where the append description is exact.
  - `Node.clone` produces a value copy of a node (tag, range, source token
    and value all copied); mutating the clone leaves the original intact.
  - `doc.createNode` produces a fresh untagged node with undefined range and
    source token; the source immediately overwrites range and source token.
All nodes freshly created by the transform (the replacement map, the pair
keys, the string value nodes and the tag-cleared clone) carry no tag, so the
continued visit of a replacement node is the identity; the embedding builds
those replacement structures directly.
-/

namespace YamlNorm

/-- Source range of a node: the three offsets (start, value end, node end)
kept by the composer for every node. -/
structure Rng where
  start : Nat
  valueEnd : Nat
  nodeEnd : Nat
deriving DecidableEq

/-- YAML AST node as used by the normalizer: a scalar, map or sequence, each
carrying an optional tag, an optional source range and an optional source
token reference. Scalar values are kept abstract as strings. -/
inductive Node where
  | scalar (tag : Option String) (range : Option Rng) (srcToken : Option Nat) (value : String)
  | map (tag : Option String) (range : Option Rng) (srcToken : Option Nat) (pairs : List (Node × Node))
  | seq (tag : Option String) (range : Option Rng) (srcToken : Option Nat) (items : List Node)

/-- Tag annotation of a node. -/
def Node.tag : Node → Option String
  | .scalar t _ _ _ => t
  | .map t _ _ _ => t
  | .seq t _ _ _ => t

/-- Source range of a node. -/
def Node.range : Node → Option Rng
  | .scalar _ r _ _ => r
  | .map _ r _ _ => r
  | .seq _ r _ _ => r

/-- Source token reference of a node. -/
def Node.srcToken : Node → Option Nat
  | .scalar _ _ s _ => s
  | .map _ _ s _ => s
  | .seq _ _ s _ => s

/-- Pair list of a map node (empty for scalars and sequences). -/
def pairsOf : Node → List (Node × Node)
  | .map _ _ _ ps => ps
  | _ => []

/-- Scalar value of a node, when it is a scalar. -/
def scalarValOf : Node → Option String
  | .scalar _ _ _ v => some v
  | _ => none

/-- Whether a node is a map node. -/
def isMapNode : Node → Bool
  | .map _ _ _ _ => true
  | _ => false

/-- Split a character list at every space, mirroring JavaScript's
`t.split(' ')`: the result is never empty, an empty input yields one empty
segment, and consecutive separators yield empty segments. -/
def splitOnSpace : List Char → List (List Char)
  | [] => [[]]
  | c :: rest =>
    let r := splitOnSpace rest
    if c = ' ' then [] :: r
    else (c :: r.headD []) :: r.tail

/-- JavaScript `t.split(' ')` on a string. -/
def splitDecl (t : String) : List String :=
  (splitOnSpace t.data).map String.mk

/-- Registry table built from the `customTags` declaration strings, mirroring
`customTags.map(t => t.split(' ')).map(p => ({tag: p[0], type: p.length > 1 ?
p[1] : 'scalar'}))` of the source: each declaration is split on single
spaces, the first token is the tag name, the second token (when present) its
kind, defaulting to `scalar`. -/
def tagMapOf (customTags : List String) : List (String × String) :=
  customTags.map fun t =>
    let p := splitDecl t
    (p.headD "", p.getD 1 "scalar")

/-- Declared tag names of a registry. -/
def declaredTags (customTags : List String) : List String :=
  (tagMapOf customTags).map Prod.fst

/-- Registry lookup, mirroring `tagMap[node.tag]` where `tagMap` is built by
`reduce((p, c) => ({...p, [c.tag]: c.type}), {})`: a later declaration of the
same tag overwrites an earlier one, and an undeclared tag yields no
classification (JavaScript `undefined`). -/
def tagType (customTags : List String) (tag : String) : Option String :=
  ((tagMapOf customTags).reverse).lookup tag

/-- Replace the first occurrence of `pat` in the character list by `repl`,
mirroring JavaScript's `String.prototype.replace` with a string pattern:
scanning left to right, the leftmost match is replaced and the rest of the
string is kept verbatim; with no match the input is returned unchanged. -/
def replFirstAux (pat repl : List Char) : List Char → List Char
  | [] => if pat = [] then repl else []
  | c :: rest =>
    if pat.isPrefixOf (c :: rest) then repl ++ (c :: rest).drop pat.length
    else c :: replFirstAux pat repl rest

/-- JavaScript `s.replace(pat, repl)` for a string pattern: first occurrence
only. -/
def replaceFirst (s pat repl : String) : String :=
  String.mk (replFirstAux pat.data repl.data s.data)

/-- Discriminator value of a tag, mirroring `node.tag.replace('!app:', '')`:
the first occurrence of the literal substring `!app:` is removed. -/
def stripped (tag : String) : String :=
  replaceFirst tag "!app:" ""

/-- Argument of `createPairFrom`: either a raw (non-node) value, for which a
fresh scalar node is created, or an existing node used as-is. -/
inductive PairValue where
  | raw (s : String)
  | node (n : Node)

/-- Mirror of `createPairFrom(node, doc, key, value)`: the key is a fresh
untagged scalar whose range and source token are copied from `node`; a
non-node value likewise becomes a fresh untagged scalar with copied range and
source token, while a node value is used unchanged. -/
def createPairFrom (node : Node) (key : String) (value : PairValue) : Node × Node :=
  let keyNode := Node.scalar none node.range node.srcToken key
  match value with
  | .raw s => (keyNode, Node.scalar none node.range node.srcToken s)
  | .node n => (keyNode, n)

mutual
/-- The `visit` walk of `transform(doc, customTags)`. An untagged scalar is
left unchanged; a tagged scalar is replaced by a fresh untagged map at the
scalar's position holding the `$type` pair and, exactly when the registry
classifies the tag as `scalar`, a `value` pair holding the tag-cleared clone
of the scalar; a tagged map keeps its tag and its (recursively visited)
pairs and gains the appended `$type` pair; sequences have no callback, so
only their items are visited. The pairs appended or created here consist of
fresh untagged scalars (and the tag-cleared clone), on which the continued
visit is the identity, so they are built directly. -/
def transformNode (customTags : List String) : Node → Node
  | .scalar none r s v => .scalar none r s v
  | .scalar (some t) r s v =>
    let src := Node.scalar (some t) r s v
    let typePair := createPairFrom src "$type" (.raw (stripped t))
    if tagType customTags t = some "scalar" then
      .map none r s [typePair, createPairFrom src "value" (.node (Node.scalar none r s v))]
    else
      .map none r s [typePair]
  | .map none r s ps => .map none r s (transformPairs customTags ps)
  | .map (some t) r s ps =>
    let src := Node.map (some t) r s ps
    let typePair := createPairFrom src "$type" (.raw (stripped t))
    .map (some t) r s (transformPairs customTags ps ++ [typePair])
  | .seq t r s xs => .seq t r s (transformItems customTags xs)

/-- Visit of a pair list: both the key and the value node of every pair are
visited. -/
def transformPairs (customTags : List String) : List (Node × Node) → List (Node × Node)
  | [] => []
  | (k, v) :: rest => (transformNode customTags k, transformNode customTags v) :: transformPairs customTags rest

/-- Visit of a sequence's item list. -/
def transformItems (customTags : List String) : List Node → List Node
  | [] => []
  | n :: rest => transformNode customTags n :: transformItems customTags rest
end

/-- Mirror of `transform(doc, customTags)` at document level: the document's
contents (possibly absent) are rewritten by the visit and the same document
is returned. -/
def transform (customTags : List String) (contents : Option Node) : Option Node :=
  contents.map (transformNode customTags)

mutual
/-- Whether no node of the tree carries a tag. -/
def noTags : Node → Bool
  | .scalar t _ _ _ => t.isNone
  | .map t _ _ ps => t.isNone && noTagsPairs ps
  | .seq t _ _ xs => t.isNone && noTagsItems xs

/-- Whether no node of a pair list carries a tag. -/
def noTagsPairs : List (Node × Node) → Bool
  | [] => true
  | (k, v) :: rest => noTags k && noTags v && noTagsPairs rest

/-- Whether no node of an item list carries a tag. -/
def noTagsItems : List Node → Bool
  | [] => true
  | n :: rest => noTags n && noTagsItems rest
end

mutual
/-- All nodes of a tree, the root included. -/
def allNodes : Node → List Node
  | .scalar t r s v => [.scalar t r s v]
  | .map t r s ps => .map t r s ps :: allNodesPairs ps
  | .seq t r s xs => .seq t r s xs :: allNodesItems xs

/-- All nodes reachable from a pair list. -/
def allNodesPairs : List (Node × Node) → List Node
  | [] => []
  | (k, v) :: rest => allNodes k ++ allNodes v ++ allNodesPairs rest

/-- All nodes reachable from an item list. -/
def allNodesItems : List Node → List Node
  | [] => []
  | n :: rest => allNodes n ++ allNodesItems rest
end

/-- Whether a map node has a pair whose key is a scalar with value `k`. -/
def hasKey (k : String) (n : Node) : Bool :=
  (pairsOf n).any fun p => scalarValOf p.1 == some k

/-- Value node of the first pair whose key is a scalar with value `k`. -/
def valueOfKey (k : String) (n : Node) : Option Node :=
  ((pairsOf n).find? fun p => scalarValOf p.1 == some k).map Prod.snd

/-- Scalar value stored under the `$type` key of a map node. -/
def typeValueOf (n : Node) : Option String :=
  (valueOfKey "$type" n).bind scalarValOf

/-- Editor position span (start line, start character, end line, end
character), as in the language server protocol ranges of the code-action
tests. -/
structure Span where
  startLine : Nat
  startChar : Nat
  endLine : Nat
  endChar : Nat
deriving DecidableEq

/-- One proposed code action: a display title and a single text edit
replacing `span` by `newText`. -/
structure CodeAction where
  title : String
  span : Span
  newText : String
deriving DecidableEq

/-- Lower-casing of a string, character by character. -/
def lowerStr (s : String) : String :=
  String.mk (s.data.map Char.toLower)

/-- Modelled from the spec: the Quick-Fix Value Inferencer of section 4.3,
implemented in `src/languageservice/services/yamlCodeActions.ts`, which is
not among the provided sources (only its tests are). Given the configured
recognized truthy and falsy spellings, the literal's raw text (quote
characters included) and the literal's span, it recognizes the text
case-insensitively; when exactly one coercion applies it produces a single
action titled `Convert to boolean` replacing exactly the literal's span with
the unquoted canonical text, and when the text matches no recognized form or
the trigger sets of both actions it produces no action and raises no
exception (the function is total). -/
def inferBooleanActions (truthy falsy : List String) (raw : String) (sp : Span) :
    List CodeAction :=
  let isT := truthy.contains (lowerStr raw)
  let isF := falsy.contains (lowerStr raw)
  if isT && !isF then [⟨"Convert to boolean", sp, "true"⟩]
  else if isF && !isT then [⟨"Convert to boolean", sp, "false"⟩]
  else []

/-- Single-quote character, used to build the single-quoted spellings. -/
def singleQuote : Char := '\''

/-- Wrap a string in single quotes. -/
def singleQuoted (s : String) : String :=
  String.mk (singleQuote :: (s.data ++ [singleQuote]))

/-- Default truthy spellings: unquoted, double-quoted and single-quoted
`true`. -/
def defaultTruthy : List String :=
  ["true", "\"true\"", singleQuoted "true"]

/-- Default falsy spellings: unquoted, double-quoted and single-quoted
`false`. -/
def defaultFalsy : List String :=
  ["false", "\"false\"", singleQuoted "false"]

/-- Characters `a` (inclusive) to `b` (exclusive) of a single-line text, used
to relate a span's character offsets to the text they cover. -/
def sliceChars (s : String) (a b : Nat) : String :=
  String.mk ((s.data.drop a).take (b - a))

/-- Default pair used only to read the head of a pair list. -/
def dfltPair : Node × Node :=
  (Node.scalar none none none "", Node.scalar none none none "")

/-- Tagged map whose single pair holds a tagged scalar value: input showing
that the visit also rewrites the map's existing pairs. -/
def c2Input : Node :=
  Node.map (some "!app:Outer") (some ⟨0, 5, 9⟩) (some 1)
    [(Node.scalar none (some ⟨1, 2, 3⟩) (some 2) "k",
      Node.scalar (some "!app:Inner") (some ⟨4, 5, 6⟩) (some 3) "x")]

/-- Scalar carrying a tag that appears in no declaration. -/
def c3Node : Node :=
  Node.scalar (some "!unregistered") (some ⟨2, 3, 4⟩) (some 9) "w"

/-- Small tree without any tag. -/
def c6Tree : Node :=
  Node.map none (some ⟨0, 4, 9⟩) (some 2)
    [(Node.scalar none (some ⟨0, 1, 2⟩) (some 3) "abc",
      Node.seq none (some ⟨3, 4, 5⟩) (some 4)
        [Node.scalar none (some ⟨3, 4, 5⟩) (some 5) "def"])]

theorem transformNode_map_tagged (ct : List String) (t : String) (r : Option Rng)
    (s : Option Nat) (ps : List (Node × Node)) :
    transformNode ct (Node.map (some t) r s ps) =
      Node.map (some t) r s (transformPairs ct ps ++
        [(Node.scalar none r s "$type", Node.scalar none r s (stripped t))]) := by
  simp [transformNode, createPairFrom, Node.range, Node.srcToken]

theorem transformPairs_length (ct : List String) (ps : List (Node × Node)) :
    (transformPairs ct ps).length = ps.length := by
  induction ps with
  | nil => rfl
  | cons p rest ih => cases p; simp [transformPairs, ih]

mutual
theorem transformNode_of_noTags (ct : List String) :
    (n : Node) → noTags n = true → transformNode ct n = n
  | .scalar none r s v, _ => rfl
  | .scalar (some _) _ _ _, h => by simp [noTags] at h
  | .map none r s ps, h => by
    simp only [transformNode]
    rw [transformPairs_of_noTags ct ps (by simpa [noTags] using h)]
  | .map (some _) _ _ _, h => by simp [noTags] at h
  | .seq t r s xs, h => by
    simp only [transformNode]
    rw [transformItems_of_noTags ct xs (by simp [noTags] at h; exact h.2)]

theorem transformPairs_of_noTags (ct : List String) :
    (ps : List (Node × Node)) → noTagsPairs ps = true → transformPairs ct ps = ps
  | [], _ => rfl
  | (k, v) :: rest, h => by
    simp only [noTagsPairs, Bool.and_eq_true] at h
    simp only [transformPairs]
    rw [transformNode_of_noTags ct k h.1.1, transformNode_of_noTags ct v h.1.2,
      transformPairs_of_noTags ct rest h.2]

theorem transformItems_of_noTags (ct : List String) :
    (xs : List Node) → noTagsItems xs = true → transformItems ct xs = xs
  | [], _ => rfl
  | n :: rest, h => by
    simp only [noTagsItems, Bool.and_eq_true] at h
    simp only [transformItems]
    rw [transformNode_of_noTags ct n h.1, transformItems_of_noTags ct rest h.2]
end

theorem lookup_eq_none_of_forall {l : List (String × String)} {t : String}
    (h : ∀ p ∈ l, p.1 ≠ t) : List.lookup t l = none := by
  induction l with
  | nil => rfl
  | cons p rest ih =>
    obtain ⟨k, b⟩ := p
    have hp : (t == k) = false :=
      beq_eq_false_iff_ne.2 (Ne.symm (h (k, b) (List.mem_cons_self (k, b) rest)))
    simp only [List.lookup, hp]
    exact ih fun q hq => h q (List.mem_cons_of_mem (k, b) hq)

theorem tagType_eq_none_of_not_declared (ct : List String) (t : String)
    (h : t ∉ declaredTags ct) : tagType ct t = none := by
  apply lookup_eq_none_of_forall
  intro p hp hpt
  exact h (hpt ▸ List.mem_map_of_mem Prod.fst (List.mem_reverse.1 hp))

theorem replFirstAux_of_append (pat repl xs : List Char) (hp : pat ≠ []) :
    replFirstAux pat repl (pat ++ xs) = repl ++ xs := by
  match pat, hp with
  | p :: pt, _ =>
    show replFirstAux (p :: pt) repl (p :: (pt ++ xs)) = repl ++ xs
    simp only [replFirstAux]
    rw [if_pos]
    · rw [show p :: (pt ++ xs) = (p :: pt) ++ xs from rfl, List.drop_left]
    · exact List.isPrefixOf_iff_prefix.2
        (by rw [show p :: (pt ++ xs) = (p :: pt) ++ xs from rfl]
            exact List.prefix_append _ _)

theorem stripped_app_tag (name : String) : stripped ("!app:" ++ name) = name := by
  show String.mk (replFirstAux "!app:".data "".data ("!app:" ++ name).data) = name
  rw [String.data_append]
  rw [replFirstAux_of_append _ _ _ (by decide)]
  show String.mk ([] ++ name.data) = name
  rw [List.nil_append]

/-- C1: a scalar node carrying tag `t` is replaced by a newly constructed map
node at the scalar's former position (same range, same source token) whose
pair list contains the pair `($type, stripped t)`, and contains the pair
`(value, clone)` — the clone being the original scalar with its tag cleared
and its value, range and source token preserved — exactly when the registry
classifies `t` as `scalar`. -/
theorem scalar_tag_normalization (ct : List String) (t : String) (r : Option Rng)
    (s : Option Nat) (v : String) :
    ∃ ps, transformNode ct (Node.scalar (some t) r s v) = Node.map none r s ps ∧
      (Node.scalar none r s "$type", Node.scalar none r s (stripped t)) ∈ ps ∧
      ((Node.scalar none r s "value", Node.scalar none r s v) ∈ ps ↔
        tagType ct t = some "scalar") := by
  by_cases h : tagType ct t = some "scalar"
  · refine ⟨[(Node.scalar none r s "$type", Node.scalar none r s (stripped t)),
      (Node.scalar none r s "value", Node.scalar none r s v)], ?_, ?_, ?_⟩
    · simp [transformNode, h, createPairFrom, Node.range, Node.srcToken]
    · exact List.mem_cons_self _ _
    · simp [h]
  · refine ⟨[(Node.scalar none r s "$type", Node.scalar none r s (stripped t))], ?_, ?_, ?_⟩
    · simp [transformNode, h, createPairFrom, Node.range, Node.srcToken]
    · exact List.mem_cons_self _ _
    · simp only [List.mem_singleton, Prod.mk.injEq]
      constructor
      · rintro ⟨hk, -⟩
        exact absurd hk (by simp)
      · intro hc
        exact absurd hc h

/-- C2 counterexample: for the tagged map `c2Input`, whose single pair holds
a scalar carrying a tag, the normalized map does have 2 = 1 + 1 pairs, but
its first pair is not identical to the input's first pair: the tagged scalar
value has been rewritten into a map, so the first N pairs of the output are
not the unmodified input pairs. -/
theorem map_tag_first_pair_modified :
    (pairsOf (transformNode [] c2Input)).length = (pairsOf c2Input).length + 1 ∧
    isMapNode ((pairsOf (transformNode [] c2Input)).headD dfltPair).2 = true ∧
    isMapNode ((pairsOf c2Input).headD dfltPair).2 = false ∧
    (pairsOf (transformNode [] c2Input)).take (pairsOf c2Input).length ≠
      pairsOf c2Input := by
  refine ⟨by decide, by decide, by decide, fun hEq => ?_⟩
  exact absurd (congrArg (fun l => isMapNode ((l.headD dfltPair).2)) hEq) (by decide)

/-- C2 amended: a map node carrying tag `t` with N existing pairs is
normalized to a map with exactly N + 1 pairs, keeping its tag annotation in
place; the last pair is the appended discriminator `($type, stripped t)` and
the first N are the recursively normalized input pairs — identical to the
input's pairs whenever they contain no tagged node. -/
theorem map_tag_appends_discriminator (ct : List String) (t : String)
    (r : Option Rng) (s : Option Nat) (ps : List (Node × Node)) :
    transformNode ct (Node.map (some t) r s ps) =
      Node.map (some t) r s (transformPairs ct ps ++
        [(Node.scalar none r s "$type", Node.scalar none r s (stripped t))]) ∧
    (transformPairs ct ps).length = ps.length ∧
    (noTagsPairs ps = true → transformPairs ct ps = ps) :=
  ⟨transformNode_map_tagged ct t r s ps, transformPairs_length ct ps,
    transformPairs_of_noTags ct ps⟩

/-- C2 witness: the amended statement applied to a concrete tagged map with
one untagged pair. -/
theorem map_tag_appends_discriminator_witness :
    transformNode [] (Node.map (some "!app:Outer") (some ⟨0, 5, 9⟩) (some 1)
        [(Node.scalar none (some ⟨1, 2, 3⟩) (some 2) "k",
          Node.scalar none (some ⟨4, 5, 6⟩) (some 3) "x")]) =
      Node.map (some "!app:Outer") (some ⟨0, 5, 9⟩) (some 1)
        [(Node.scalar none (some ⟨1, 2, 3⟩) (some 2) "k",
          Node.scalar none (some ⟨4, 5, 6⟩) (some 3) "x"),
         (Node.scalar none (some ⟨0, 5, 9⟩) (some 1) "$type",
          Node.scalar none (some ⟨0, 5, 9⟩) (some 1) "Outer")] := by
  have h := map_tag_appends_discriminator [] "!app:Outer" (some ⟨0, 5, 9⟩) (some 1)
    [(Node.scalar none (some ⟨1, 2, 3⟩) (some 2) "k",
      Node.scalar none (some ⟨4, 5, 6⟩) (some 3) "x")]
  rw [h.1, h.2.2 (by decide)]
  rw [show stripped "!app:Outer" = "Outer" from stripped_app_tag "Outer"]
  rfl

/-- C3 counterexample: the scalar `c3Node` carries a tag that appears in no
declaration; its replacement map does carry the `$type` pair but no `value`
pair at all — the registry lookup yields no classification for an
undeclared tag, so the claimed `scalar` default does not apply. -/
theorem unknown_tag_scalar_no_value_pair :
    hasKey "$type" (transformNode [] c3Node) = true ∧
    hasKey "value" (transformNode [] c3Node) = false ∧
    (pairsOf (transformNode [] c3Node)).length = 1 := by
  decide

/-- C3 amended: for a scalar carrying a tag `t` that appears in no
declaration of the registry, normalization raises no error and produces the
replacement map with exactly one pair, the `($type, stripped t)`
discriminator, and no `(value, clone)` pair: the `scalar` default applies
only to declared tags lacking a kind token, not to undeclared tags. -/
theorem unknown_tag_only_type_pair (ct : List String) (t : String) (r : Option Rng)
    (s : Option Nat) (v : String) (h : t ∉ declaredTags ct) :
    transformNode ct (Node.scalar (some t) r s v) =
      Node.map none r s
        [(Node.scalar none r s "$type", Node.scalar none r s (stripped t))] := by
  have hn : tagType ct t = none := tagType_eq_none_of_not_declared ct t h
  simp [transformNode, hn, createPairFrom, Node.range, Node.srcToken]

/-- C3 witness: the amended statement applied to a registry declaring two
other tags and a scalar tagged with an undeclared tag. -/
theorem unknown_tag_only_type_pair_witness :
    transformNode ["!x:A", "!y:B map"]
        (Node.scalar (some "!z:C") (some ⟨7, 8, 9⟩) (some 4) "q") =
      Node.map none (some ⟨7, 8, 9⟩) (some 4)
        [(Node.scalar none (some ⟨7, 8, 9⟩) (some 4) "$type",
          Node.scalar none (some ⟨7, 8, 9⟩) (some 4) "!z:C")] :=
  unknown_tag_only_type_pair ["!x:A", "!y:B map"] "!z:C" (some ⟨7, 8, 9⟩) (some 4) "q"
    (by decide)

/-- C4 counterexample: for a scalar tagged `!foo:Bar` — a tag of the shape
`!<namespace>:<name>` with namespace `foo` — the discriminator value is the
unchanged `!foo:Bar`, not the bare local name `Bar`: only the literal
substring `!app:` is removed by the normalizer. -/
theorem nonapp_namespace_not_stripped :
    typeValueOf (transformNode [] (Node.scalar (some "!foo:Bar") (some ⟨0, 1, 2⟩) none "q")) =
      some "!foo:Bar" ∧
    typeValueOf (transformNode [] (Node.scalar (some "!foo:Bar") (some ⟨0, 1, 2⟩) none "q")) ≠
      some "Bar" := by
  decide

/-- C4 amended: the discriminator value is the tag with the first occurrence
of the literal substring `!app:` removed; in particular, for every tag of the
form `!app:<name>` the `$type` value of the normalized node is `<name>`,
both for tagged scalars and for tagged maps. -/
theorem app_namespace_stripped (ct : List String) (name : String) (r : Option Rng)
    (s : Option Nat) (v : String) (ps : List (Node × Node)) :
    typeValueOf (transformNode ct (Node.scalar (some ("!app:" ++ name)) r s v)) =
      some name ∧
    (pairsOf (transformNode ct (Node.map (some ("!app:" ++ name)) r s ps))).getLast? =
      some (Node.scalar none r s "$type", Node.scalar none r s name) := by
  constructor
  · by_cases h : tagType ct ("!app:" ++ name) = some "scalar" <;>
      simp [transformNode, h, createPairFrom, Node.range, Node.srcToken, typeValueOf,
        valueOfKey, pairsOf, List.find?, scalarValOf, stripped_app_tag]
  · rw [transformNode_map_tagged ct ("!app:" ++ name) r s ps, stripped_app_tag]
    simp [pairsOf, List.getLast?_concat]

/-- C5: every node synthesized by normalization carries the source range and
source token of the node it replaces or augments. For a tagged scalar, every
node of the replacement tree — the new map itself, each pair key, the
`$type` value and the clone — has the scalar's range and source token, so in
particular when the scalar's position is defined no synthesized node has an
undefined position; for a tagged map, the key and value of the appended
discriminator pair carry the map's own range and source token. -/
theorem synthesized_nodes_preserve_position (ct : List String) (t : String)
    (r : Option Rng) (s : Option Nat) (v : String) (ps : List (Node × Node)) :
    (∀ m ∈ allNodes (transformNode ct (Node.scalar (some t) r s v)),
      m.range = r ∧ m.srcToken = s) ∧
    (r.isSome = true →
      ∀ m ∈ allNodes (transformNode ct (Node.scalar (some t) r s v)),
        m.range.isSome = true) ∧
    (∃ kN vN,
      (pairsOf (transformNode ct (Node.map (some t) r s ps))).getLast? = some (kN, vN) ∧
      kN.range = r ∧ kN.srcToken = s ∧ vN.range = r ∧ vN.srcToken = s) := by
  have key : ∀ m ∈ allNodes (transformNode ct (Node.scalar (some t) r s v)),
      m.range = r ∧ m.srcToken = s := by
    by_cases h : tagType ct t = some "scalar" <;>
      simp [transformNode, h, createPairFrom, allNodes, allNodesPairs,
        Node.range, Node.srcToken]
  refine ⟨key, fun hr m hm => ?_, ?_⟩
  · rw [(key m hm).1]
    exact hr
  · refine ⟨Node.scalar none r s "$type", Node.scalar none r s (stripped t),
      ?_, rfl, rfl, rfl, rfl⟩
    rw [transformNode_map_tagged ct t r s ps]
    simp [pairsOf, List.getLast?_concat]

/-- C5 witness: the position-preservation statement applied to a concrete
tagged scalar with a defined position, read off at the replacement map
itself. -/
theorem synthesized_nodes_preserve_position_witness :
    (transformNode [] (Node.scalar (some "!app:T") (some ⟨0, 1, 2⟩) (some 5) "x")).range =
      some ⟨0, 1, 2⟩ ∧
    (transformNode [] (Node.scalar (some "!app:T") (some ⟨0, 1, 2⟩) (some 5) "x")).srcToken =
      some 5 :=
  (synthesized_nodes_preserve_position [] "!app:T" (some ⟨0, 1, 2⟩) (some 5) "x" []).1
    (transformNode [] (Node.scalar (some "!app:T") (some ⟨0, 1, 2⟩) (some 5) "x"))
    (by simp [transformNode, tagType, tagMapOf, createPairFrom, allNodes,
      Node.range, Node.srcToken])

/-- C6: normalizing a tree in which no node carries a tag returns the tree
unchanged, structurally and positionally: every untagged node is left as it
is and the visit merely recurses into children. -/
theorem transform_untagged_identity (ct : List String) (n : Node)
    (h : noTags n = true) : transform ct (some n) = some n := by
  simp [transform, transformNode_of_noTags ct n h]

/-- C6 witness: the identity statement applied to a concrete untagged tree
holding a map, a sequence and scalars. -/
theorem transform_untagged_identity_witness :
    transform [] (some c6Tree) = some c6Tree :=
  transform_untagged_identity [] c6Tree (by decide)

/-- C7: for the double-quoted literal text of `false` under a boolean-typed
schema target, the inferencer produces exactly one action, titled `Convert
to boolean`, whose single edit replaces exactly the span of the quoted
literal with the unquoted text `false`: in the document `analytics: "false"`
that span is characters 11 to 18 of line 0, covering the quote characters
but not the key, colon or space before them. -/
theorem convert_false_single_action :
    inferBooleanActions defaultTruthy defaultFalsy "\"false\"" ⟨0, 11, 0, 18⟩ =
      [⟨"Convert to boolean", ⟨0, 11, 0, 18⟩, "false"⟩] ∧
    sliceChars "analytics: \"false\"" 11 18 = "\"false\"" ∧
    sliceChars "analytics: \"false\"" 0 11 = "analytics: " := by
  decide

/-- C8: a literal text recognized by neither the configured truthy nor falsy
spellings, or recognized by both trigger sets at once, yields zero actions;
the inferencer is a total function of its inputs, so no exception is
raised. -/
theorem inferencer_unrecognized_empty (truthy falsy : List String) (raw : String)
    (sp : Span)
    (h : (truthy.contains (lowerStr raw) = false ∧ falsy.contains (lowerStr raw) = false) ∨
      (truthy.contains (lowerStr raw) = true ∧ falsy.contains (lowerStr raw) = true)) :
    inferBooleanActions truthy falsy raw sp = [] := by
  rcases h with ⟨h1, h2⟩ | ⟨h1, h2⟩ <;> simp at h1 h2 <;>
    simp [inferBooleanActions, h1, h2]

/-- C8 witness: the unrecognized literal `maybe` yields zero actions under
the default spellings. -/
theorem inferencer_unrecognized_empty_witness :
    inferBooleanActions defaultTruthy defaultFalsy "maybe" ⟨0, 0, 0, 5⟩ = [] :=
  inferencer_unrecognized_empty defaultTruthy defaultFalsy "maybe" ⟨0, 0, 0, 5⟩
    (Or.inl ⟨by decide, by decide⟩)

/-- C10: normalizing a tagged scalar classified `scalar` stores under the
`value` key a clone whose tag is cleared while its value, range and source
token all equal the original scalar's; the original scalar term itself still
carries its tag — in this pure embedding the input is immutable, so clearing
the tag on the clone cannot touch the original, mirroring that the source
clears the tag on `node.clone()`, a fresh copy, and not on `node`. -/
theorem clone_tag_cleared_value_preserved (ct : List String) (t : String)
    (r : Option Rng) (s : Option Nat) (v : String)
    (h : tagType ct t = some "scalar") :
    ∃ kN cl,
      (pairsOf (transformNode ct (Node.scalar (some t) r s v))).getLast? =
        some (kN, cl) ∧
      cl.tag = none ∧ cl.range = r ∧ cl.srcToken = s ∧ scalarValOf cl = some v ∧
      (Node.scalar (some t) r s v).tag = some t := by
  refine ⟨Node.scalar none r s "value", Node.scalar none r s v, ?_, rfl, rfl, rfl, rfl, rfl⟩
  simp [transformNode, h, createPairFrom, pairsOf, Node.range, Node.srcToken]

/-- C10 witness: the clone statement applied to a scalar whose tag is
declared with no kind token, so the registry classifies it `scalar` by
default. -/
theorem clone_tag_cleared_value_preserved_witness :
    ∃ kN cl,
      (pairsOf (transformNode ["!thing"]
          (Node.scalar (some "!thing") (some ⟨1, 2, 3⟩) (some 7) "val"))).getLast? =
        some (kN, cl) ∧
      cl.tag = none ∧ cl.range = some ⟨1, 2, 3⟩ ∧ cl.srcToken = some 7 ∧
      scalarValOf cl = some "val" ∧
      (Node.scalar (some "!thing") (some ⟨1, 2, 3⟩) (some 7) "val").tag = some "!thing" :=
  clone_tag_cleared_value_preserved ["!thing"] "!thing" (some ⟨1, 2, 3⟩) (some 7) "val"
    (by decide)

end YamlNorm
